import Mathlib

/-!
Verification of the contract-search service (`src/app.py`).

The Python program is shallowly embedded:
* Python `float` values are modelled as exact rationals (`ℚ`).  Every
  arithmetic fact used by a claim (`670 * 1000`, `700000 * (1 - 0.2)`,
  `150 / 100`, …) is exact in IEEE double precision as well, so the
  rational model agrees with the running program on all inputs exercised
  here.  Non-finite floats (`inf`, `nan`) are outside the model.
* Python strings are Lean `String`s; the single-character
  `str.replace(c, '')` calls of the source are modelled as character
  filters over `String.data`, and `float(...)` on the cleaned remainder
  is modelled by a decimal-literal grammar (optional sign, digits, at
  most one dot).  Exponent / underscore / infinity spellings accepted by
  Python `float` are outside the modelled grammar; no claim exercises
  them.
* The filesystem is passed explicitly: a carrier directory is
  `Option (List ContractFile)` — `none` when `os.path.exists` is false,
  otherwise the directory listing in `os.listdir` order.  A CSV file is
  its parsed row list; the cell `row['CURRENT <CARRIER>']` is modelled
  by the outcome of `float(...)` on it (`Cell.val q`, or `Cell.bad msg`
  when the coercion raises, carrying the exception message).
* Raising is modelled with `Except`; FastAPI responses by an explicit
  result type.  `str(HTTPException(404, d))` is modelled as
  `"404: " ++ d` (Starlette renders `f"{status_code}: {detail}"`).
-/

deriving instance DecidableEq for Except

/-- Python list slicing `l[:n]` for an `int` `n` (negative `n` counts
from the end, clamped at zero). -/
def pyTake {α : Type} (n : ℤ) (l : List α) : List α :=
  if 0 ≤ n then l.take n.toNat else l.take (l.length - (-n).toNat)

/-- Python `dict` assignment `d[k] = v`: update in place if the key is
present (keeping its position), else append at the end. -/
def dictInsert {β : Type} (k : String) (v : β) : List (String × β) → List (String × β)
  | [] => [(k, v)]
  | (k₂, v₂) :: rest =>
      if k = k₂ then (k₂, v) :: rest else (k₂, v₂) :: dictInsert k v rest

/-- Stable insertion for descending order: `x` goes in front of the
first element whose key is not larger, as Python's stable
`sorted(..., reverse=True)` keeps earlier elements first on ties. -/
def insertDesc {α : Type} (key : α → ℚ) (x : α) : List α → List α
  | [] => [x]
  | y :: ys => if key y ≤ key x then x :: y :: ys else y :: insertDesc key x ys

/-- Python `sorted(l, key=key, reverse=True)` (stable, descending). -/
def sortDesc {α : Type} (key : α → ℚ) : List α → List α
  | [] => []
  | x :: xs => insertDesc key x (sortDesc key xs)

/-- Stable insertion for ascending order. -/
def insertAsc (x : ℚ) : List ℚ → List ℚ
  | [] => [x]
  | y :: ys => if x ≤ y then x :: y :: ys else y :: insertAsc x ys

/-- Python `sorted(l)` on numbers (stable, ascending). -/
def sortAsc : List ℚ → List ℚ
  | [] => []
  | x :: xs => insertAsc x (sortAsc xs)

/-- Round to the nearest integer, ties to even — the rounding used by
Python's fixed-point string formatting. -/
def roundHalfEven (q : ℚ) : ℤ :=
  let f := ⌊q⌋
  let r := q - (f : ℚ)
  if r < 1 / 2 then f
  else if 1 / 2 < r then f + 1
  else if f % 2 = 0 then f else f + 1

/-- Left-pad a digit string with zeros to width `w`. -/
def padZeros (s : String) (w : Nat) : String :=
  String.mk (List.replicate (w - s.length) '0') ++ s

/-- Python `f"{q:.{decimals}f}"` on the rational model. -/
def ratFmt (q : ℚ) (decimals : Nat) : String :=
  let n : ℤ := roundHalfEven (q * (10 : ℚ) ^ decimals)
  if decimals = 0 then toString n
  else
    let sign := if n < 0 then "-" else ""
    let m := n.natAbs
    sign ++ toString (m / 10 ^ decimals) ++ "." ++
      padZeros (toString (m % 10 ^ decimals)) decimals

/-- Python `f"{q:.3%}"`. -/
def pctFmt (q : ℚ) : String := ratFmt (q * 100) 3 ++ "%"

/-! ## The spend parser (`parse_spend`, app.py lines 24–31) -/

/-- Digits of a numeral folded to a natural number. -/
def natOfDigits (cs : List Char) : Nat :=
  cs.foldl (fun n c => 10 * n + (c.toNat - 48)) 0

/-- Split a character list at the separator `.` (`""` splits to
`[""]`, like Python `str.split`). -/
def splitDot : List Char → List (List Char)
  | [] => [[]]
  | c :: rest =>
      if c = '.' then [] :: splitDot rest
      else
        match splitDot rest with
        | [] => [[c]]
        | p :: ps => (c :: p) :: ps

/-- An unsigned decimal literal: digits with at most one dot and at
least one digit overall (`"670"`, `"2.2"`, `".5"`, `"5."`). -/
def parseDecimalCore (cs : List Char) : Option ℚ :=
  match splitDot cs with
  | [ip] =>
      if !ip.isEmpty && ip.all Char.isDigit then some (natOfDigits ip) else none
  | [ip, fp] =>
      if !(ip.isEmpty && fp.isEmpty) && ip.all Char.isDigit && fp.all Char.isDigit then
        some ((natOfDigits ip : ℚ) + (natOfDigits fp : ℚ) / (10 : ℚ) ^ fp.length)
      else none
  | _ => none

/-- Python `float(s)` on the decimal-literal grammar (optional sign). -/
def parseDecimal (cs : List Char) : Option ℚ :=
  match cs with
  | [] => none
  | c :: rest =>
      if c = '-' then (parseDecimalCore rest).map Neg.neg
      else if c = '+' then parseDecimalCore rest
      else parseDecimalCore (c :: rest)

/-- Single-character `str.replace(c, '')`. -/
def removeChar (c : Char) (cs : List Char) : List Char :=
  cs.filter (fun d => d ≠ c)

/-- Python `c in s`, fixed character membership. -/
def hasChar (c : Char) (cs : List Char) : Bool :=
  cs.any (fun d => d == c)

/-- `parse_spend` (app.py 24–31): strip `$` and `,`; `M` suffix scales
by 1 000 000, `K` by 1 000, otherwise the bare number.  A failing
`float(...)` raises `ValueError` whose message names the offending
remainder; the error value carries that remainder. -/
def parse_spend (s : String) : Except String ℚ :=
  let cs := removeChar ',' (removeChar '$' s.data)
  if hasChar 'M' cs then
    match parseDecimal (removeChar 'M' cs) with
    | some q => .ok (q * 1000000)
    | none => .error ("could not convert string to float: " ++ String.mk (removeChar 'M' cs))
  else if hasChar 'K' cs then
    match parseDecimal (removeChar 'K' cs) with
    | some q => .ok (q * 1000)
    | none => .error ("could not convert string to float: " ++ String.mk (removeChar 'K' cs))
  else
    match parseDecimal cs with
    | some q => .ok q
    | none => .error ("could not convert string to float: " ++ String.mk cs)

/-- `format_spend` (app.py 33–37). -/
def format_spend (spend : ℚ) : String :=
  if 1000000 ≤ spend then "$" ++ ratFmt (spend / 1000000) 1 ++ "M"
  else "$" ++ ratFmt (spend / 1000) 0 ++ "K"

/-- `get_spend_range` (app.py 39–43). -/
def get_spend_range (spend tolerance : ℚ) : ℚ × ℚ :=
  (spend * (1 - tolerance), spend * (1 + tolerance))

/-- `normalize_discount` (app.py 45–47). -/
def normalize_discount (discount : ℚ) : ℚ :=
  if 100 < discount then discount / 100 else discount

/-! ## The filename regex `re.search(r'\$(.+?)\.csv', filename)`
(app.py line 67).  `.` is modelled as "any character" (filenames have
no newlines).  The lazy group takes, after a `$`, at least one
character and then stops at the first occurrence of `.csv`; the match
starts at the leftmost `$` admitting such a completion. -/

/-- Does the text start with the four characters `.csv`? -/
def isCsvAt (cs : List Char) : Bool :=
  cs.take 4 == ['.', 'c', 's', 'v']

/-- Grow the lazy capture until `.csv` follows. -/
def captureGo (acc : List Char) : List Char → Option (List Char)
  | [] => none
  | c :: rest =>
      if isCsvAt (c :: rest) then some acc.reverse
      else captureGo (c :: acc) rest

/-- Capture of `(.+?)` right after a `$`: at least one character, then
the earliest `.csv`. -/
def captureAfterDollar : List Char → Option (List Char)
  | [] => none
  | c :: rest => captureGo [c] rest

/-- Leftmost match of `\$(.+?)\.csv`; returns the captured group. -/
def spendMatchChars : List Char → Option (List Char)
  | [] => none
  | c :: rest =>
      if c = '$' then
        match captureAfterDollar rest with
        | some cap => some cap
        | none => spendMatchChars rest
      else spendMatchChars rest

/-- `re.search(r'\$(.+?)\.csv', filename)` returning `group(1)`. -/
def spendMatch (filename : String) : Option String :=
  (spendMatchChars filename.data).map String.mk

/-! ## Data model -/

/-- Outcome of `float(row['CURRENT <CARRIER>'])` for one CSV row:
either the finite numeric value, or the raised exception's message. -/
inductive Cell : Type
  | val (q : ℚ)
  | bad (msg : String)
deriving DecidableEq

/-- One CSV row: its `DOMESTIC AIR SERVICE LEVEL` label and its
carrier-discount cell. -/
structure Row : Type where
  service : String
  cell : Cell
deriving DecidableEq

/-- One file of a carrier directory: name and parsed CSV rows. -/
structure ContractFile : Type where
  filename : String
  rows : List Row
deriving DecidableEq

/-- `contract_info` (app.py 75–79). -/
structure ContractInfo : Type where
  filename : String
  spend : ℚ
  service_levels : List (String × ℚ)
deriving DecidableEq

/-- A best/worst record: discount and originating filename
(app.py 94–108). -/
structure Extreme : Type where
  discount : ℚ
  contract : String
deriving DecidableEq

/-- Per-service running statistics (app.py 93–96). -/
structure SLStat : Type where
  best : Extreme
  worst : Extreme
deriving DecidableEq

/-- One value of `results['top_services']` (app.py 122–126). -/
structure ServiceOut : Type where
  best : String
  worst : String
deriving DecidableEq

/-- The value returned by `search_contracts` (app.py 116–126). -/
structure SearchResults : Type where
  range : String
  confidence : String
  top_services : List (String × ServiceOut)
deriving DecidableEq

/-- An exception escaping `search_contracts`: the explicit
`HTTPException(404, …)` of line 63, or a `ValueError` from a failed
`float(...)` coercion. -/
inductive AppError : Type
  | http404 (detail : String)
  | valueError (msg : String)
deriving DecidableEq

/-- `str(e)` for the two modelled exceptions (Starlette renders an
`HTTPException` as `f"{status_code}: {detail}"`). -/
def errorMessage : AppError → String
  | .http404 d => "404: " ++ d
  | .valueError m => m

/-! ## The search pipeline (`search_contracts`, app.py 49–128) -/

/-- The row loop of app.py 81–84 building
`contract_info['service_levels']`: a cell whose `float(...)` coercion
fails raises (aborting with its message), otherwise the dict is
updated, later rows with the same service overwriting earlier ones. -/
def buildServiceLevelsAux (acc : List (String × ℚ)) : List Row → Except String (List (String × ℚ))
  | [] => .ok acc
  | r :: rest =>
      match r.cell with
      | .val q => buildServiceLevelsAux (dictInsert r.service (normalize_discount q) acc) rest
      | .bad msg => .error msg

/-- `contract_info['service_levels']` for a file's rows. -/
def buildServiceLevels (rows : List Row) : Except String (List (String × ℚ)) :=
  buildServiceLevelsAux [] rows

/-- Python `filename.endswith('.csv')` (app.py 66), as a suffix test
on the character list. -/
def endsWithCsv (s : String) : Bool :=
  s.data.reverse.take 4 == ['v', 's', 'c', '.']

/-- Result of the filename tests of app.py 66–69 for one file:
`none` when the file is skipped (no `.csv` suffix or no regex match),
otherwise the outcome of `parse_spend` on the captured group. -/
def fileStatus (f : ContractFile) : Option (Except String ℚ) :=
  if endsWithCsv f.filename then (spendMatch f.filename).map parse_spend
  else none

/-- A file passes the whole filter of app.py 66–71: it parses to a
spend inside the inclusive `[lower, upper]` range. -/
def contributesB (lower upper : ℚ) (f : ContractFile) : Bool :=
  match fileStatus f with
  | some (.ok sp) => decide (lower ≤ sp) && decide (sp ≤ upper)
  | _ => false

/-- Outcome of the loop body of app.py 66–86 on one file: skipped by
the filename tests or the range check, kept as a `contract_info`, or a
raised exception (spend parse or row coercion). -/
inductive FileOutcome : Type
  | skip
  | keep (info : ContractInfo)
  | fail (e : AppError)
deriving DecidableEq

/-- The loop body of app.py 66–86 on one file, in source order:
`.csv` suffix test, regex match, spend parse, range check, CSV row
loop. -/
def processFile (lower upper : ℚ) (f : ContractFile) : FileOutcome :=
  if endsWithCsv f.filename then
    match spendMatch f.filename with
    | some cap =>
        match parse_spend cap with
        | .error msg => .fail (.valueError msg)
        | .ok sp =>
            if lower ≤ sp ∧ sp ≤ upper then
              match buildServiceLevels f.rows with
              | .error msg => .fail (.valueError msg)
              | .ok sls => .keep ⟨f.filename, sp, sls⟩
            else .skip
    | none => .skip
  else .skip

/-- The directory loop of app.py 65–86 building `contracts_data`.
Files are visited in listing order; a raised exception aborts the
whole loop. -/
def collectContracts (lower upper : ℚ) : List ContractFile → Except AppError (List ContractInfo)
  | [] => .ok []
  | f :: fs =>
      match processFile lower upper f with
      | .skip => collectContracts lower upper fs
      | .fail e => .error e
      | .keep info =>
          match collectContracts lower upper fs with
          | .ok rest => .ok (info :: rest)
          | .error e => .error e

/-- Updating one `service_level_stats` entry (app.py 98–108); the
comparisons are strict, as in the source. -/
def updateStat (fname : String) (d : ℚ) (st : SLStat) : SLStat :=
  { best := if st.best.discount < d then ⟨d, fname⟩ else st.best
    worst := if d < st.worst.discount then ⟨d, fname⟩ else st.worst }

/-- One iteration of the aggregation loop (app.py 91–108).  A service
seen for the first time is initialised with `±inf` sentinels and then
immediately beaten by the finite `d`, so the fresh entry holds `d` and
`fname` on both sides. -/
def updateOne (fname service : String) (d : ℚ) : List (String × SLStat) → List (String × SLStat)
  | [] => [(service, ⟨⟨d, fname⟩, ⟨d, fname⟩⟩)]
  | (s, st) :: rest =>
      if service = s then (s, updateStat fname d st) :: rest
      else (s, st) :: updateOne fname service d rest

/-- The inner loop over one contract's `service_levels` (app.py 91). -/
def statsOfLevels (fname : String) (sls : List (String × ℚ))
    (stats : List (String × SLStat)) : List (String × SLStat) :=
  sls.foldl (fun acc p => updateOne fname p.1 p.2 acc) stats

/-- `service_level_stats` after the loop of app.py 88–108. -/
def serviceLevelStats (cds : List ContractInfo) : List (String × SLStat) :=
  cds.foldl (fun acc c => statsOfLevels c.filename c.service_levels acc) []

/-- `sorted_services` (app.py 110–114): stable sort by best discount,
descending, then the Python slice `[:top_n]`. -/
def sortedServices (top_n : ℤ) (stats : List (String × SLStat)) : List (String × SLStat) :=
  pyTake top_n (sortDesc (fun p => p.2.best.discount) stats)

/-- `f"{discount:.3%} at {contract}"` (app.py 124–125). -/
def fmtExtreme (e : Extreme) : String :=
  pctFmt e.discount ++ " at " ++ e.contract

/-- One `results['top_services']` value (app.py 122–126). -/
def fmtStat (st : SLStat) : ServiceOut :=
  ⟨fmtExtreme st.best, fmtExtreme st.worst⟩

/-- `search_contracts` (app.py 49–128).  The carrier directory is the
`dir` argument (`none` ⇔ `os.path.exists` fails).  The Python 404
detail quotes the path with single quotation marks, elided here. -/
def search_contracts (dir : Option (List ContractFile)) (carrier : String)
    (target_spend tolerance : ℚ) (top_n : ℤ) : Except AppError SearchResults :=
  let lower := (get_spend_range target_spend tolerance).1
  let upper := (get_spend_range target_spend tolerance).2
  match dir with
  | none => .error (.http404 ("Carrier directory clean/" ++ carrier ++ " not found."))
  | some files =>
      match collectContracts lower upper files with
      | .error e => .error e
      | .ok cds =>
          .ok { range := "(" ++ format_spend lower ++ "-" ++ format_spend upper ++ ")"
                confidence := "Number of contracts in this range: " ++ toString cds.length
                top_services :=
                  (sortedServices top_n (serviceLevelStats cds)).map
                    (fun p => (p.1, fmtStat p.2)) }

/-- A FastAPI response of the search endpoint: the JSON result, or an
`HTTPException` with status code and detail. -/
inductive EndpointResult : Type
  | ok (results : SearchResults)
  | err (statusCode : Nat) (detail : String)
deriving DecidableEq

/-- `search_contracts_endpoint` (app.py 130–142).  The
`except Exception` clause catches every exception — including the
`HTTPException(404, …)` raised on a missing carrier directory, since
`HTTPException` subclasses `Exception` — and re-raises it as a 500
whose detail wraps `str(e)`. -/
def search_contracts_endpoint (dir : Option (List ContractFile)) (carrier : String)
    (target_spend tolerance : ℚ) (top_n : ℤ) : EndpointResult :=
  match search_contracts dir carrier target_spend tolerance top_n with
  | .ok r => .ok r
  | .error e => .err 500 ("An error occurred: " ++ errorMessage e)

/-! ## The Statistics Service (spec-modelled)

`POST /analyze_contracts/` is described by the spec (§2, §4, §6) but
its source file is not under `src/`; the definitions below are
modelled from the spec's words and reuse the pieces the spec says the
two services share (directory listing, filename spend parsing, CSV
loading, discount normalization). -/

/-- Modelled from the spec: the Statistics aggregator reads each row's
carrier discount cell, normalizes it, and appends it to the row's
service-level list; rows with non-numeric or missing values are
skipped silently (§4.4). -/
def analyzeFileRows (rows : List Row) : List (String × ℚ) :=
  rows.filterMap (fun r =>
    match r.cell with
    | .val q => some (r.service, normalize_discount q)
    | .bad _ => none)

/-- Modelled from the spec: the Statistics Service scans the carrier
directory with the same filename parsing and tolerance filter as the
Search Service (§4.3); a malformed spend string is an unhandled parse
failure (§7a). -/
def analyzeCollect (lower upper : ℚ) : List ContractFile → Except String (List (String × ℚ))
  | [] => .ok []
  | f :: fs =>
      match fileStatus f with
      | none => analyzeCollect lower upper fs
      | some (.error m) => .error m
      | some (.ok sp) =>
          if lower ≤ sp ∧ sp ≤ upper then
            match analyzeCollect lower upper fs with
            | .ok rest => .ok (analyzeFileRows f.rows ++ rest)
            | .error m => .error m
          else analyzeCollect lower upper fs

/-- Group collected `(service, discount)` pairs per service level,
keeping first-appearance order of the labels. -/
def groupInsert (s : String) (d : ℚ) : List (String × List ℚ) → List (String × List ℚ)
  | [] => [(s, [d])]
  | (s₂, ds) :: rest =>
      if s = s₂ then (s₂, ds ++ [d]) :: rest else (s₂, ds) :: groupInsert s d rest

/-- All discounts per service level, in encounter order. -/
def groupByService (ps : List (String × ℚ)) : List (String × List ℚ) :=
  ps.foldl (fun acc p => groupInsert p.1 p.2 acc) []

/-- Modelled from the spec: per service level the Statistics Service
reports average, min, max, count and the full sorted list of
contributing discounts (§3). -/
structure ServiceStats : Type where
  service : String
  count : Nat
  mean : ℚ
  minD : ℚ
  maxD : ℚ
  values : List ℚ
deriving DecidableEq

/-- Sum of a list of rationals. -/
def listSum (ds : List ℚ) : ℚ := ds.sum

/-- Modelled from the spec: the statistics of one service level's
collected discounts (groups are created nonempty; the empty case is
unreachable). -/
def statsOfGroup (p : String × List ℚ) : ServiceStats :=
  match p.2 with
  | [] => ⟨p.1, 0, 0, 0, 0, []⟩
  | d :: ds =>
      ⟨p.1, (d :: ds).length, listSum (d :: ds) / ((d :: ds).length : ℚ),
       ds.foldl min d, ds.foldl max d, sortAsc (d :: ds)⟩

/-- Modelled from the spec: service levels sorted by average discount,
descending (§4.5). -/
def analyzeStats (ps : List (String × ℚ)) : List ServiceStats :=
  sortDesc (fun st => st.mean) ((groupByService ps).map statsOfGroup)

/-- Modelled from the spec: discount values render as `40.000%` in
the statistics report (§8). -/
def pctFmtStats (q : ℚ) : String := ratFmt q 3 ++ "%"

/-- Modelled from the spec: one text block of the report (§4.5, §8). -/
def renderBlock (st : ServiceStats) : String :=
  st.service ++ "\n  mean: " ++ pctFmtStats st.mean ++ "\n  min: " ++ pctFmtStats st.minD ++
    "\n  max: " ++ pctFmtStats st.maxD ++ "\n  count: " ++ toString st.count ++
    "\n  values: " ++ String.intercalate ", " (st.values.map pctFmtStats) ++ "\n"

/-- Modelled from the spec: the plain-text multi-block report. -/
def renderReport (sts : List ServiceStats) : String :=
  String.intercalate "\n" (sts.map renderBlock)

/-- A response of the statistics endpoint. -/
inductive AnalyzeResult : Type
  | ok (report : String)
  | err (statusCode : Nat) (detail : String)
deriving DecidableEq

/-- Modelled from the spec: `POST /analyze_contracts/` with body
`{target_spend, carrier, tolerance}` returns the plain-text report and
turns any internal error into a 500 (§6). -/
def analyze_contracts_endpoint (dir : Option (List ContractFile)) (carrier : String)
    (target_spend tolerance : ℚ) : AnalyzeResult :=
  let lower := (get_spend_range target_spend tolerance).1
  let upper := (get_spend_range target_spend tolerance).2
  match dir with
  | none => .err 500 ("listing directory clean/" ++ carrier ++ " failed")
  | some files =>
      match analyzeCollect lower upper files with
      | .error m => .err 500 m
      | .ok ps => .ok (renderReport (analyzeStats ps))

/-! ## Utility lemmas -/

theorem dictInsert_mem {β : Type} {x : String × β} {k : String} {v : β} :
    ∀ {l : List (String × β)}, x ∈ dictInsert k v l → x = (k, v) ∨ x ∈ l := by
  intro l
  induction l with
  | nil => intro h; simpa [dictInsert] using h
  | cons p rest ih =>
      intro h
      by_cases hk : k = p.1
      · rw [show p = (p.1, p.2) from rfl] at h
        simp only [dictInsert, if_pos hk] at h
        rcases List.mem_cons.mp h with h | h
        · exact Or.inl (by simp [h, hk])
        · exact Or.inr (List.mem_cons_of_mem _ h)
      · rw [show p = (p.1, p.2) from rfl] at h
        simp only [dictInsert, if_neg hk] at h
        rcases List.mem_cons.mp h with h | h
        · exact Or.inr (by simp [h])
        · rcases ih h with h₂ | h₂
          · exact Or.inl h₂
          · exact Or.inr (List.mem_cons_of_mem _ h₂)

theorem insertDesc_perm {α : Type} (key : α → ℚ) (x : α) :
    ∀ l : List α, List.Perm (insertDesc key x l) (x :: l) := by
  intro l
  induction l with
  | nil => simp [insertDesc]
  | cons y ys ih =>
      by_cases h : key y ≤ key x
      · simp [insertDesc, h]
      · simp only [insertDesc, if_neg h]
        exact (ih.cons y).trans (List.Perm.swap x y ys)

theorem sortDesc_perm {α : Type} (key : α → ℚ) :
    ∀ l : List α, List.Perm (sortDesc key l) l := by
  intro l
  induction l with
  | nil => simp [sortDesc]
  | cons x xs ih =>
      exact ((insertDesc_perm key x (sortDesc key xs)).trans (ih.cons x))

theorem insertDesc_pairwise {α : Type} (key : α → ℚ) (x : α) :
    ∀ l : List α, l.Pairwise (fun a b => key b ≤ key a) →
      (insertDesc key x l).Pairwise (fun a b => key b ≤ key a) := by
  intro l
  induction l with
  | nil => intro _; simp [insertDesc]
  | cons y ys ih =>
      intro hp
      rcases List.pairwise_cons.mp hp with ⟨hy, hys⟩
      by_cases h : key y ≤ key x
      · simp only [insertDesc, if_pos h]
        refine List.pairwise_cons.mpr ⟨?_, hp⟩
        intro b hb
        rcases List.mem_cons.mp hb with hb | hb
        · exact hb ▸ h
        · exact le_trans (hy b hb) h
      · simp only [insertDesc, if_neg h]
        refine List.pairwise_cons.mpr ⟨?_, ih hys⟩
        intro b hb
        rcases List.mem_cons.mp ((insertDesc_perm key x ys).mem_iff.mp hb) with hb | hb
        · exact hb ▸ le_of_not_le h
        · exact hy b hb

theorem sortDesc_pairwise {α : Type} (key : α → ℚ) :
    ∀ l : List α, (sortDesc key l).Pairwise (fun a b => key b ≤ key a) := by
  intro l
  induction l with
  | nil => simp [sortDesc]
  | cons x xs ih => exact insertDesc_pairwise key x _ ih

theorem insertAsc_perm (x : ℚ) : ∀ l : List ℚ, List.Perm (insertAsc x l) (x :: l) := by
  intro l
  induction l with
  | nil => simp [insertAsc]
  | cons y ys ih =>
      by_cases h : x ≤ y
      · simp [insertAsc, h]
      · simp only [insertAsc, if_neg h]
        exact (ih.cons y).trans (List.Perm.swap x y ys)

theorem sortAsc_perm : ∀ l : List ℚ, List.Perm (sortAsc l) l := by
  intro l
  induction l with
  | nil => simp [sortAsc]
  | cons x xs ih => exact ((insertAsc_perm x (sortAsc xs)).trans (ih.cons x))

theorem insertAsc_pairwise (x : ℚ) :
    ∀ l : List ℚ, l.Pairwise (· ≤ ·) → (insertAsc x l).Pairwise (· ≤ ·) := by
  intro l
  induction l with
  | nil => intro _; simp [insertAsc]
  | cons y ys ih =>
      intro hp
      rcases List.pairwise_cons.mp hp with ⟨hy, hys⟩
      by_cases h : x ≤ y
      · simp only [insertAsc, if_pos h]
        refine List.pairwise_cons.mpr ⟨?_, hp⟩
        intro b hb
        rcases List.mem_cons.mp hb with hb | hb
        · exact hb ▸ h
        · exact le_trans h (hy b hb)
      · simp only [insertAsc, if_neg h]
        refine List.pairwise_cons.mpr ⟨?_, ih hys⟩
        intro b hb
        rcases List.mem_cons.mp ((insertAsc_perm x ys).mem_iff.mp hb) with hb | hb
        · exact hb ▸ le_of_not_le h
        · exact hy b hb

theorem sortAsc_pairwise : ∀ l : List ℚ, (sortAsc l).Pairwise (· ≤ ·) := by
  intro l
  induction l with
  | nil => simp [sortAsc]
  | cons x xs ih => exact insertAsc_pairwise x _ ih

theorem pyTake_eq_take {α : Type} (n : ℤ) (l : List α) :
    pyTake n l = l.take (if 0 ≤ n then n.toNat else l.length - (-n).toNat) := by
  by_cases h : 0 ≤ n <;> simp [pyTake, h]

theorem pyTake_subset {α : Type} (n : ℤ) (l : List α) : pyTake n l ⊆ l := by
  rw [pyTake_eq_take]; exact List.take_subset _ _

theorem pyTake_length_le {α : Type} (n : ℤ) (l : List α) (h : 0 ≤ n) :
    (pyTake n l).length ≤ n.toNat := by
  simp [pyTake, h]

/-! ## Pipeline lemmas -/

theorem buildServiceLevelsAux_error {msg : String} {row : Row} :
    ∀ (rows : List Row) (acc : List (String × ℚ)), row ∈ rows → row.cell = .bad msg →
      ∃ m, buildServiceLevelsAux acc rows = .error m := by
  intro rows
  induction rows with
  | nil => intro acc h _; simp at h
  | cons r rest ih =>
      intro acc hmem hbad
      cases hc : r.cell with
      | bad m => exact ⟨m, by simp [buildServiceLevelsAux, hc]⟩
      | val q =>
          rcases List.mem_cons.mp hmem with h | h
          · subst h; rw [hbad] at hc; cases hc
          · rcases ih (dictInsert r.service (normalize_discount q) acc) h hbad with ⟨m, hm⟩
            exact ⟨m, by simp [buildServiceLevelsAux, hc, hm]⟩

theorem buildServiceLevelsAux_mem {x : String × ℚ} :
    ∀ (rows : List Row) (acc sls : List (String × ℚ)),
      buildServiceLevelsAux acc rows = .ok sls → x ∈ sls →
      x ∈ acc ∨ ∃ row ∈ rows, row.service = x.1 ∧ ∃ q, row.cell = .val q ∧
        x.2 = normalize_discount q := by
  intro rows
  induction rows with
  | nil =>
      intro acc sls h hx
      simp only [buildServiceLevelsAux] at h
      injection h with h
      exact Or.inl (h ▸ hx)
  | cons r rest ih =>
      intro acc sls h hx
      cases hc : r.cell with
      | bad m => simp [buildServiceLevelsAux, hc] at h
      | val q =>
          simp only [buildServiceLevelsAux, hc] at h
          rcases ih _ _ h hx with hacc | ⟨row, hrow, hs, q₂, hcell, hd⟩
          · rcases dictInsert_mem hacc with hx₂ | hx₂
            · right
              exact ⟨r, List.mem_cons_self r rest, by simp [hx₂], q, hc, by simp [hx₂]⟩
            · exact Or.inl hx₂
          · exact Or.inr ⟨row, List.mem_cons_of_mem _ hrow, hs, q₂, hcell, hd⟩

theorem contributesB_iff {l u : ℚ} {f : ContractFile} :
    contributesB l u f = true ↔
      endsWithCsv f.filename = true ∧ ∃ cap sp, spendMatch f.filename = some cap ∧
        parse_spend cap = .ok sp ∧ l ≤ sp ∧ sp ≤ u := by
  unfold contributesB fileStatus
  by_cases he : endsWithCsv f.filename = true
  · rw [if_pos he]
    cases hm : spendMatch f.filename with
    | none => simp [he]
    | some cap =>
        rw [Option.map_some']
        cases hp : parse_spend cap with
        | error m =>
            simp only [he, true_and]
            constructor
            · intro h; simp at h
            · rintro ⟨cap₂, sp₂, hc₂, hp₂, h₁, h₂⟩
              injection hc₂ with hc₂
              subst hc₂
              rw [hp] at hp₂
              cases hp₂
        | ok sp =>
            simp only [he, true_and]
            constructor
            · intro h
              rcases Bool.and_eq_true_iff.mp h with ⟨h₁, h₂⟩
              exact ⟨cap, sp, rfl, hp, of_decide_eq_true h₁, of_decide_eq_true h₂⟩
            · rintro ⟨cap₂, sp₂, hc₂, hp₂, h₁, h₂⟩
              injection hc₂ with hc₂
              subst hc₂
              rw [hp] at hp₂
              injection hp₂ with hp₂
              subst hp₂
              exact Bool.and_eq_true_iff.mpr ⟨decide_eq_true h₁, decide_eq_true h₂⟩
  · rw [if_neg he]
    simp [he]

theorem processFile_keep {l u : ℚ} {f : ContractFile} {info : ContractInfo}
    (h : processFile l u f = .keep info) :
    contributesB l u f = true ∧ info.filename = f.filename ∧
      buildServiceLevels f.rows = .ok info.service_levels := by
  unfold processFile at h
  split at h
  · rename_i he
    split at h
    · rename_i cap hm
      split at h
      · simp at h
      · rename_i sp hp
        split at h
        · rename_i hr
          split at h
          · simp at h
          · rename_i sls hb
            injection h with h
            subst h
            exact ⟨contributesB_iff.mpr ⟨he, cap, sp, hm, hp, hr.1, hr.2⟩, rfl, hb⟩
        · simp at h
    · simp at h
  · simp at h

theorem processFile_skip {l u : ℚ} {f : ContractFile}
    (h : endsWithCsv f.filename = false ∨ spendMatch f.filename = none) :
    processFile l u f = .skip := by
  unfold processFile
  rcases h with h | h
  · simp [h]
  · cases he : endsWithCsv f.filename
    · simp [he]
    · simp [he, h]

theorem processFile_fail_of_badrow {l u : ℚ} {f : ContractFile} {row : Row} {msg : String}
    (hcont : contributesB l u f = true) (hrow : row ∈ f.rows) (hbad : row.cell = .bad msg) :
    ∃ e, processFile l u f = .fail e := by
  rcases contributesB_iff.mp hcont with ⟨he, cap, sp, hm, hp, h₁, h₂⟩
  rcases buildServiceLevelsAux_error f.rows [] hrow hbad with ⟨m, hbm⟩
  refine ⟨.valueError m, ?_⟩
  unfold processFile
  simp [he, hm, hp, h₁, h₂, buildServiceLevels, hbm]

theorem processFile_of_contributes {l u : ℚ} {f : ContractFile}
    (hcont : contributesB l u f = true) :
    (∃ info, processFile l u f = .keep info ∧ info.filename = f.filename) ∨
      (∃ e, processFile l u f = .fail e) := by
  rcases contributesB_iff.mp hcont with ⟨he, cap, sp, hm, hp, h₁, h₂⟩
  cases hb : buildServiceLevels f.rows with
  | error m =>
      right
      exact ⟨.valueError m, by unfold processFile; simp [he, hm, hp, h₁, h₂, hb]⟩
  | ok sls =>
      left
      exact ⟨⟨f.filename, sp, sls⟩, by unfold processFile; simp [he, hm, hp, h₁, h₂, hb], rfl⟩

theorem collect_mem {l u : ℚ} {c : ContractInfo} :
    ∀ {files : List ContractFile} {cds : List ContractInfo},
      collectContracts l u files = .ok cds → c ∈ cds →
      ∃ f ∈ files, processFile l u f = .keep c := by
  intro files
  induction files with
  | nil =>
      intro cds h hc
      simp only [collectContracts] at h
      injection h with h
      subst h
      simp at hc
  | cons f fs ih =>
      intro cds h hc
      simp only [collectContracts] at h
      cases hpf : processFile l u f <;> rw [hpf] at h
      · rcases ih h hc with ⟨g, hg, hk⟩
        exact ⟨g, List.mem_cons_of_mem _ hg, hk⟩
      · rename_i info
        cases hrest : collectContracts l u fs <;> rw [hrest] at h
        · cases h
        · injection h with h
          subst h
          rcases List.mem_cons.mp hc with hc | hc
          · exact ⟨f, List.mem_cons_self f fs, hc ▸ hpf⟩
          · rcases ih hrest hc with ⟨g, hg, hk⟩
            exact ⟨g, List.mem_cons_of_mem _ hg, hk⟩
      · cases h

theorem collect_keep_mem {l u : ℚ} {info : ContractInfo} :
    ∀ {files : List ContractFile} {cds : List ContractInfo} {f : ContractFile},
      collectContracts l u files = .ok cds → f ∈ files → processFile l u f = .keep info →
      info ∈ cds := by
  intro files
  induction files with
  | nil => intro cds f _ hf _; simp at hf
  | cons g gs ih =>
      intro cds f h hf hk
      simp only [collectContracts] at h
      rcases List.mem_cons.mp hf with hf | hf
      · subst hf
        rw [hk] at h
        cases hrest : collectContracts l u gs <;> rw [hrest] at h
        · cases h
        · injection h with h
          subst h
          exact List.mem_cons_self _ _
      · cases hpf : processFile l u g <;> rw [hpf] at h
        · exact ih h hf hk
        · cases hrest : collectContracts l u gs <;> rw [hrest] at h
          · cases h
          · injection h with h
            subst h
            exact List.mem_cons_of_mem _ (ih hrest hf hk)
        · cases h

theorem collect_error_of_fail {l u : ℚ} {e : AppError} :
    ∀ {files : List ContractFile} {f : ContractFile},
      f ∈ files → processFile l u f = .fail e →
      ∃ e₂, collectContracts l u files = .error e₂ := by
  intro files
  induction files with
  | nil => intro f hf _; simp at hf
  | cons g gs ih =>
      intro f hf hk
      rcases List.mem_cons.mp hf with hf | hf
      · subst hf
        exact ⟨e, by simp [collectContracts, hk]⟩
      · cases hpf : processFile l u g
        · rcases ih hf hk with ⟨e₂, he₂⟩
          exact ⟨e₂, by simp [collectContracts, hpf, he₂]⟩
        · rcases ih hf hk with ⟨e₂, he₂⟩
          exact ⟨e₂, by simp [collectContracts, hpf, he₂]⟩
        · rename_i e₃
          exact ⟨e₃, by simp [collectContracts, hpf]⟩

theorem collect_skip_middle {l u : ℚ} {f : ContractFile}
    (hf : processFile l u f = .skip) :
    ∀ (pre post : List ContractFile),
      collectContracts l u (pre ++ f :: post) = collectContracts l u (pre ++ post) := by
  intro pre post
  induction pre with
  | nil => simp [collectContracts, hf]
  | cons g gs ih => simp only [List.cons_append, collectContracts, List.append_eq, ih]

/-! ## Aggregation invariants (app.py 88–108) -/

/-- Per-entry invariant of `service_level_stats`: the worst discount
never exceeds the best, and both extremes satisfy the origin
predicate `P service discount contractName`. -/
def StatInv (P : String → ℚ → String → Prop) (x : String × SLStat) : Prop :=
  x.2.worst.discount ≤ x.2.best.discount ∧
    P x.1 x.2.best.discount x.2.best.contract ∧
    P x.1 x.2.worst.discount x.2.worst.contract

theorem updateStat_inv {P : String → ℚ → String → Prop} {s fname : String} {d : ℚ}
    {st : SLStat} (h : StatInv P (s, st)) (hP : P s d fname) :
    StatInv P (s, updateStat fname d st) := by
  obtain ⟨hle, hb, hw⟩ := h
  unfold StatInv updateStat
  dsimp only at *
  by_cases h₁ : st.best.discount < d
  · rw [if_pos h₁]
    by_cases h₂ : d < st.worst.discount
    · rw [if_pos h₂]
      exact ⟨le_refl d, hP, hP⟩
    · rw [if_neg h₂]
      exact ⟨le_trans hle (le_of_lt h₁), hP, hw⟩
  · rw [if_neg h₁]
    by_cases h₂ : d < st.worst.discount
    · rw [if_pos h₂]
      exact ⟨le_of_not_lt h₁, hb, hP⟩
    · rw [if_neg h₂]
      exact ⟨hle, hb, hw⟩

theorem updateOne_inv {P : String → ℚ → String → Prop} {fname service : String} {d : ℚ} :
    ∀ {stats : List (String × SLStat)},
      (∀ x ∈ stats, StatInv P x) → P service d fname →
      ∀ x ∈ updateOne fname service d stats, StatInv P x := by
  intro stats
  induction stats with
  | nil =>
      intro _ hP x hx
      simp only [updateOne] at hx
      rcases List.mem_singleton.mp hx with hx
      subst hx
      exact ⟨le_refl d, hP, hP⟩
  | cons p rest ih =>
      obtain ⟨s, st⟩ := p
      intro hall hP x hx
      simp only [updateOne] at hx
      by_cases hs : service = s
      · rw [if_pos hs] at hx
        rcases List.mem_cons.mp hx with hx | hx
        · subst hx
          exact updateStat_inv (hall (s, st) (List.mem_cons_self _ _)) (hs ▸ hP)
        · exact hall x (List.mem_cons_of_mem _ hx)
      · rw [if_neg hs] at hx
        rcases List.mem_cons.mp hx with hx | hx
        · subst hx
          exact hall (s, st) (List.mem_cons_self _ _)
        · exact ih (fun y hy => hall y (List.mem_cons_of_mem _ hy)) hP x hx

theorem statsOfLevels_inv {P : String → ℚ → String → Prop} {fname : String} :
    ∀ (sls : List (String × ℚ)) (stats : List (String × SLStat)),
      (∀ x ∈ stats, StatInv P x) → (∀ p ∈ sls, P p.1 p.2 fname) →
      ∀ x ∈ statsOfLevels fname sls stats, StatInv P x := by
  intro sls
  induction sls with
  | nil => intro stats h _ x hx; exact h x hx
  | cons p ps ih =>
      intro stats hall hP x hx
      simp only [statsOfLevels, List.foldl_cons] at hx
      refine ih (updateOne fname p.1 p.2 stats) ?_ ?_ x hx
      · exact fun y hy => updateOne_inv hall (hP p (List.mem_cons_self _ _)) y hy
      · exact fun q hq => hP q (List.mem_cons_of_mem _ hq)

theorem serviceLevelStats_inv {cds : List ContractInfo} :
    ∀ x ∈ serviceLevelStats cds,
      StatInv (fun s d fn => ∃ c ∈ cds, fn = c.filename ∧ (s, d) ∈ c.service_levels) x := by
  suffices h : ∀ (l : List ContractInfo) (stats : List (String × SLStat)),
      (∀ c ∈ l, c ∈ cds) →
      (∀ x ∈ stats,
        StatInv (fun s d fn => ∃ c ∈ cds, fn = c.filename ∧ (s, d) ∈ c.service_levels) x) →
      ∀ x ∈ l.foldl (fun acc c => statsOfLevels c.filename c.service_levels acc) stats,
        StatInv (fun s d fn => ∃ c ∈ cds, fn = c.filename ∧ (s, d) ∈ c.service_levels) x by
    intro x hx
    exact h cds [] (fun c hc => hc) (by simp) x hx
  intro l
  induction l with
  | nil => intro stats _ h x hx; exact h x hx
  | cons c cs ih =>
      intro stats hsub hall x hx
      simp only [List.foldl_cons] at hx
      refine ih _ (fun c₂ hc₂ => hsub c₂ (List.mem_cons_of_mem _ hc₂)) ?_ x hx
      intro y hy
      refine statsOfLevels_inv c.service_levels stats hall ?_ y hy
      intro p hp
      exact ⟨c, hsub c (List.mem_cons_self _ _), rfl, by simpa using hp⟩

/-! ## Search / endpoint lemmas -/

theorem search_ok_elim {files : List ContractFile} {carrier : String} {target tol : ℚ}
    {topn : ℤ} {r : SearchResults}
    (h : search_contracts (some files) carrier target tol topn = .ok r) :
    ∃ cds, collectContracts (get_spend_range target tol).1 (get_spend_range target tol).2 files
        = .ok cds ∧
      r.top_services = (sortedServices topn (serviceLevelStats cds)).map
        (fun p => (p.1, fmtStat p.2)) := by
  simp only [search_contracts] at h
  cases hc : collectContracts (get_spend_range target tol).1 (get_spend_range target tol).2 files
    <;> rw [hc] at h
  · cases h
  · injection h with h
    subst h
    exact ⟨_, rfl, rfl⟩

theorem search_error_of_collect {files : List ContractFile} {carrier : String}
    {target tol : ℚ} {topn : ℤ} {e : AppError}
    (h : collectContracts (get_spend_range target tol).1 (get_spend_range target tol).2 files
      = .error e) :
    search_contracts (some files) carrier target tol topn = .error e := by
  simp only [search_contracts]
  rw [h]

theorem endpoint_of_error {dir : Option (List ContractFile)} {carrier : String}
    {target tol : ℚ} {topn : ℤ} {e : AppError}
    (h : search_contracts dir carrier target tol topn = .error e) :
    search_contracts_endpoint dir carrier target tol topn =
      .err 500 ("An error occurred: " ++ errorMessage e) := by
  unfold search_contracts_endpoint
  rw [h]

/-! ## Spend-parser lemmas -/

theorem digits_ne {ds : List Char} (h : ds.all Char.isDigit = true) {c : Char}
    (hc : c.isDigit = false) : ∀ a ∈ ds, a ≠ c := by
  intro a ha heq
  subst heq
  exact absurd (List.all_eq_true.mp h a ha) (by simp [hc])

theorem forall_ne_append {c : Char} {l₁ l₂ : List Char} (h₁ : ∀ a ∈ l₁, a ≠ c)
    (h₂ : ∀ a ∈ l₂, a ≠ c) : ∀ a ∈ l₁ ++ l₂, a ≠ c := by
  intro a ha
  rcases List.mem_append.mp ha with ha | ha
  · exact h₁ a ha
  · exact h₂ a ha

theorem removeChar_eq_self {c : Char} {ds : List Char} (h : ∀ a ∈ ds, a ≠ c) :
    removeChar c ds = ds :=
  List.filter_eq_self.mpr fun a ha => decide_eq_true (h a ha)

theorem removeChar_cons_self (c : Char) (l : List Char) :
    removeChar c (c :: l) = removeChar c l := by
  simp [removeChar]

theorem removeChar_append (c : Char) (l₁ l₂ : List Char) :
    removeChar c (l₁ ++ l₂) = removeChar c l₁ ++ removeChar c l₂ :=
  List.filter_append _ _

theorem hasChar_append (c : Char) (l₁ l₂ : List Char) :
    hasChar c (l₁ ++ l₂) = (hasChar c l₁ || hasChar c l₂) :=
  List.any_append

theorem hasChar_false {c : Char} {ds : List Char} (h : ∀ a ∈ ds, a ≠ c) :
    hasChar c ds = false := by
  unfold hasChar
  rw [List.any_eq_false]
  intro a ha
  simp [h a ha]

theorem splitDot_no_dot {ds : List Char} (h : ∀ a ∈ ds, a ≠ '.') :
    splitDot ds = [ds] := by
  induction ds with
  | nil => rfl
  | cons c rest ih =>
      have hc : c ≠ '.' := h c (List.mem_cons_self _ _)
      simp only [splitDot, if_neg hc]
      rw [ih (fun a ha => h a (List.mem_cons_of_mem _ ha))]

theorem parseDecimal_digits {ds : List Char} (hne : ds ≠ [])
    (h : ds.all Char.isDigit = true) :
    parseDecimal ds = some ((natOfDigits ds : ℚ)) := by
  have hdot : ∀ a ∈ ds, a ≠ '.' := digits_ne h (by decide)
  have hcore : parseDecimalCore ds = some ((natOfDigits ds : ℚ)) := by
    unfold parseDecimalCore
    rw [splitDot_no_dot hdot]
    simp [h, hne]
  cases ds with
  | nil => exact absurd rfl hne
  | cons c rest =>
      have hminus : c ≠ '-' :=
        digits_ne h (by decide) c (List.mem_cons_self _ _)
      have hplus : c ≠ '+' :=
        digits_ne h (by decide) c (List.mem_cons_self _ _)
      simp only [parseDecimal, if_neg hminus, if_neg hplus]
      exact hcore

/-- The cleaning pass of `parse_spend` leaves a digits-plus-suffix
remainder unchanged apart from the `$`. -/
theorem parse_spend_digits_suffix {ds : List Char}
    (hdig : ds.all Char.isDigit = true) (suf : List Char)
    (hsd : ∀ a ∈ suf, a ≠ '$') (hsc : ∀ a ∈ suf, a ≠ ',') :
    removeChar ',' (removeChar '$' ('$' :: ds ++ suf)) = ds ++ suf := by
  have hd : ∀ a ∈ ds, a ≠ '$' := digits_ne hdig (by decide)
  have hcm : ∀ a ∈ ds, a ≠ ',' := digits_ne hdig (by decide)
  rw [show ('$' :: ds ++ suf : List Char) = '$' :: (ds ++ suf) from rfl]
  rw [removeChar_cons_self]
  rw [removeChar_eq_self (forall_ne_append hd hsd)]
  exact removeChar_eq_self (forall_ne_append hcm hsc)

/-- C3: `parse_spend` strips `$` and `,`, scales by 1 000 for a `K`
suffix and by 1 000 000 for an `M` suffix, returns the bare number
otherwise, and raises on an unparsable numeric remainder; in
particular `parse_spend "$670K" = 670000.0` and
`parse_spend "$2.2M" = 2200000.0` (exact rationals model the Python
floats, whose values coincide here). -/
theorem parse_spend_spec :
    parse_spend "$670K" = .ok 670000 ∧
    parse_spend "$2.2M" = .ok 2200000 ∧
    parse_spend "$1,000" = .ok 1000 ∧
    (∃ msg, parse_spend "$abcK" = .error msg) ∧
    (∀ ds : List Char, ds ≠ [] → ds.all Char.isDigit = true →
      parse_spend (String.mk ('$' :: ds ++ ['K'])) = .ok ((natOfDigits ds : ℚ) * 1000) ∧
      parse_spend (String.mk ('$' :: ds ++ ['M'])) = .ok ((natOfDigits ds : ℚ) * 1000000) ∧
      parse_spend (String.mk ('$' :: ds)) = .ok ((natOfDigits ds : ℚ))) := by
  refine ⟨by with_unfolding_all rfl, by with_unfolding_all rfl, by with_unfolding_all rfl,
    ⟨"could not convert string to float: abc", by with_unfolding_all rfl⟩, ?_⟩
  intro ds hne hdig
  have hM : ∀ a ∈ ds, a ≠ 'M' := digits_ne hdig (by decide)
  have hK : ∀ a ∈ ds, a ≠ 'K' := digits_ne hdig (by decide)
  refine ⟨?_, ?_, ?_⟩
  · simp only [parse_spend]
    rw [parse_spend_digits_suffix hdig ['K'] (by decide) (by decide)]
    rw [show hasChar 'M' (ds ++ ['K']) = false from by
      rw [hasChar_append, hasChar_false hM]; rfl]
    rw [show hasChar 'K' (ds ++ ['K']) = true from by
      rw [hasChar_append, Bool.or_eq_true]; exact Or.inr rfl]
    rw [if_neg (by simp), if_pos rfl]
    rw [show removeChar 'K' (ds ++ ['K']) = ds from by
      rw [removeChar_append, removeChar_eq_self hK]; simp [removeChar]]
    rw [parseDecimal_digits hne hdig]
  · simp only [parse_spend]
    rw [parse_spend_digits_suffix hdig ['M'] (by decide) (by decide)]
    rw [show hasChar 'M' (ds ++ ['M']) = true from by
      rw [hasChar_append, Bool.or_eq_true]; exact Or.inr rfl]
    rw [if_pos rfl]
    rw [show removeChar 'M' (ds ++ ['M']) = ds from by
      rw [removeChar_append, removeChar_eq_self hM]; simp [removeChar]]
    rw [parseDecimal_digits hne hdig]
  · simp only [parse_spend]
    have hd : ∀ a ∈ ds, a ≠ '$' := digits_ne hdig (by decide)
    have hcm : ∀ a ∈ ds, a ≠ ',' := digits_ne hdig (by decide)
    rw [show removeChar ',' (removeChar '$' ('$' :: ds)) = ds from by
      rw [removeChar_cons_self, removeChar_eq_self hd, removeChar_eq_self hcm]]
    rw [if_neg (by simp [hasChar_false hM]), if_neg (by simp [hasChar_false hK])]
    rw [parseDecimal_digits hne hdig]

/-- C3 witness: the universal part of `parse_spend_spec` evaluated at
the digit string `42`. -/
theorem parse_spend_spec_witness :
    (['4', '2'] : List Char) ≠ [] ∧ (['4', '2'].all Char.isDigit) = true ∧
    parse_spend (String.mk ('$' :: ['4', '2'] ++ ['K'])) =
      .ok ((natOfDigits ['4', '2'] : ℚ) * 1000) := by
  refine ⟨by decide, by decide, ?_⟩
  exact (parse_spend_spec.2.2.2.2 ['4', '2'] (by decide) (by decide)).1

set_option maxRecDepth 1000000

/-- C1: the claim says a missing carrier directory makes the endpoint
answer HTTP 404.  `search_contracts` does raise `HTTPException(404, …)`
(app.py 62–63), but the endpoint wrapper catches every `Exception` —
`HTTPException` included — and re-raises it with status 500
(app.py 141–142), so the endpoint answers 500 at the failing input and
a 404 response is impossible there. -/
theorem missing_carrier_dir_gives_500 :
    search_contracts none "GHOST" 700000 (2 / 10) 3 =
      .error (.http404 "Carrier directory clean/GHOST not found.") ∧
    search_contracts_endpoint none "GHOST" 700000 (2 / 10) 3 =
      .err 500 "An error occurred: 404: Carrier directory clean/GHOST not found." ∧
    ∀ d : String, search_contracts_endpoint none "GHOST" 700000 (2 / 10) 3 ≠ .err 404 d := by
  refine ⟨by with_unfolding_all rfl, by with_unfolding_all rfl, ?_⟩
  intro d h
  rw [show search_contracts_endpoint none "GHOST" 700000 (2 / 10) 3 =
      .err 500 "An error occurred: 404: Carrier directory clean/GHOST not found." from by
    with_unfolding_all rfl] at h
  injection h with h₁ h₂
  exact absurd h₁ (by decide)

/-- C5: `normalize_discount` divides by 100 exactly when the input is
strictly greater than 100 and is the identity otherwise;
`normalize_discount 150 = 1.5` (the rational `3/2`) and
`normalize_discount 45 = 45`. -/
theorem normalize_discount_spec :
    (∀ d : ℚ, 100 < d → normalize_discount d = d / 100) ∧
    (∀ d : ℚ, d ≤ 100 → normalize_discount d = d) ∧
    normalize_discount 150 = 3 / 2 ∧ normalize_discount 45 = 45 := by
  refine ⟨?_, ?_, by with_unfolding_all rfl, by with_unfolding_all rfl⟩
  · intro d h
    simp [normalize_discount, h]
  · intro d h
    simp [normalize_discount, not_lt.mpr h]

/-- C5 witness: `normalize_discount_spec` applied at 150 and 45. -/
theorem normalize_discount_spec_witness :
    (100 : ℚ) < 150 ∧ normalize_discount 150 = 150 / 100 ∧
    (45 : ℚ) ≤ 100 ∧ normalize_discount 45 = 45 :=
  ⟨by norm_num, normalize_discount_spec.1 150 (by norm_num),
   by norm_num, normalize_discount_spec.2.1 45 (by norm_num)⟩

/-- C8: every exception escaping `search_contracts` is answered with a
500 whose detail contains the exception's message (app.py 141–142). -/
theorem exception_gives_500_with_message (dir : Option (List ContractFile))
    (carrier : String) (target tol : ℚ) (topn : ℤ) (e : AppError)
    (h : search_contracts dir carrier target tol topn = .error e) :
    ∃ d, search_contracts_endpoint dir carrier target tol topn = .err 500 d ∧
      ∃ sl sr, d = sl ++ errorMessage e ++ sr := by
  refine ⟨"An error occurred: " ++ errorMessage e, endpoint_of_error h,
    "An error occurred: ", "", ?_⟩
  rw [String.append_empty]

/-- C8 witness: `exception_gives_500_with_message` at the 404-raising
input. -/
theorem exception_gives_500_with_message_witness :
    ∃ d, search_contracts_endpoint none "UPS" 700000 (2 / 10) 3 = .err 500 d ∧
      ∃ sl sr,
        d = sl ++ errorMessage (.http404 "Carrier directory clean/UPS not found.") ++ sr :=
  exception_gives_500_with_message none "UPS" 700000 (2 / 10) 3 _ (by with_unfolding_all rfl)

/-- C9: a file whose name does not end in `.csv` or does not match the
`\$(.+?)\.csv` pattern is skipped silently: the result is the same as
if the file were absent (app.py 66–68). -/
theorem non_matching_file_ignored (carrier : String) (target tol : ℚ) (topn : ℤ)
    (front back : List ContractFile) (f : ContractFile)
    (hf : endsWithCsv f.filename = false ∨ spendMatch f.filename = none) :
    search_contracts (some (front ++ f :: back)) carrier target tol topn =
      search_contracts (some (front ++ back)) carrier target tol topn := by
  simp only [search_contracts]
  rw [collect_skip_middle (processFile_skip hf)]

/-- C9 witness: dropping `README.txt` from a directory does not change
the search result. -/
theorem non_matching_file_ignored_witness :
    (endsWithCsv "README.txt" = false ∨ spendMatch "README.txt" = none) ∧
    search_contracts
        (some ([⟨"$700K.csv", [⟨"Ground", .val 50⟩]⟩] ++ (⟨"README.txt", []⟩ : ContractFile) :: []))
        "UPS" 700000 (2 / 10) 3 =
      search_contracts (some ([⟨"$700K.csv", [⟨"Ground", .val 50⟩]⟩] ++ []))
        "UPS" 700000 (2 / 10) 3 :=
  ⟨Or.inl (by decide),
   non_matching_file_ignored "UPS" 700000 (2 / 10) 3 _ _ _ (Or.inl (by decide))⟩

/-- `contributesB` inspects only the filename. -/
theorem contributesB_filename {l u : ℚ} {f g : ContractFile} (h : f.filename = g.filename) :
    contributesB l u f = contributesB l u g := by
  unfold contributesB fileStatus endsWithCsv
  rw [h]

/-- C4: when the directory loop succeeds, a file of the carrier
directory contributes a `contract_info` to `contracts_data` exactly
when its name passes the `.csv` and regex tests and encodes a
parseable spend inside the inclusive range
`[target*(1-tolerance), target*(1+tolerance)]` (app.py 65–86). -/
theorem file_contributes_iff (target tol : ℚ) (files : List ContractFile)
    (cds : List ContractInfo) (f : ContractFile)
    (hok : collectContracts (get_spend_range target tol).1 (get_spend_range target tol).2 files
      = .ok cds)
    (hf : f ∈ files) :
    (∃ c ∈ cds, c.filename = f.filename) ↔
      (endsWithCsv f.filename = true ∧ ∃ cap sp, spendMatch f.filename = some cap ∧
        parse_spend cap = .ok sp ∧
        target * (1 - tol) ≤ sp ∧ sp ≤ target * (1 + tol)) := by
  constructor
  · rintro ⟨c, hc, hname⟩
    rcases collect_mem hok hc with ⟨g, _, hkeep⟩
    rcases processFile_keep hkeep with ⟨hcont, hcfn, _⟩
    have hfg : f.filename = g.filename := by rw [← hcfn, hname]
    have hcontf : contributesB (get_spend_range target tol).1 (get_spend_range target tol).2 f
        = true := by
      rw [contributesB_filename hfg]
      exact hcont
    exact contributesB_iff.mp hcontf
  · rintro ⟨hcsv, cap, sp, hm, hp, h₁, h₂⟩
    have hcont : contributesB (get_spend_range target tol).1 (get_spend_range target tol).2 f
        = true :=
      contributesB_iff.mpr ⟨hcsv, cap, sp, hm, hp, h₁, h₂⟩
    rcases processFile_of_contributes hcont with ⟨info, hkeep, hfn⟩ | ⟨e, hfail⟩
    · exact ⟨info, collect_keep_mem hok hf hkeep, hfn⟩
    · rcases collect_error_of_fail hf hfail with ⟨e₂, he₂⟩
      rw [hok] at he₂
      cases he₂

/-- C4 witness: with files `$500K.csv`, `$700K.csv`, `$900K.csv`,
target 700000 and tolerance 0.2, the range is `[560000, 840000]` and
exactly the `$700K.csv` file contributes. -/
theorem file_contributes_iff_witness :
    ((∃ c ∈ [(⟨"$700K.csv", 700000,
          [("Next Day Air", 50)]⟩ : ContractInfo)],
        c.filename = ("$700K.csv" : String)) ↔
      (endsWithCsv "$700K.csv" = true ∧ ∃ cap sp, spendMatch "$700K.csv" = some cap ∧
        parse_spend cap = .ok sp ∧
        (700000 : ℚ) * (1 - 2 / 10) ≤ sp ∧ sp ≤ 700000 * (1 + 2 / 10))) ∧
    collectContracts (get_spend_range 700000 (2 / 10)).1 (get_spend_range 700000 (2 / 10)).2
        [⟨"$500K.csv", [⟨"Ground", .val 30⟩]⟩,
         ⟨"$700K.csv", [⟨"Next Day Air", .val 50⟩]⟩,
         ⟨"$900K.csv", [⟨"Ground", .val 20⟩]⟩] =
      .ok [⟨"$700K.csv", 700000, [("Next Day Air", 50)]⟩] :=
  ⟨file_contributes_iff 700000 (2 / 10)
      [⟨"$500K.csv", [⟨"Ground", .val 30⟩]⟩,
       ⟨"$700K.csv", [⟨"Next Day Air", .val 50⟩]⟩,
       ⟨"$900K.csv", [⟨"Ground", .val 20⟩]⟩]
      [⟨"$700K.csv", 700000, [("Next Day Air", 50)]⟩]
      ⟨"$700K.csv", [⟨"Next Day Air", .val 50⟩]⟩
      (by with_unfolding_all rfl)
      (by with_unfolding_all decide),
   by with_unfolding_all rfl⟩

/-- C7: a matching contract file containing a row whose discount cell
cannot be coerced makes `search_contracts` raise (app.py 83), so the
whole request aborts with a 500 and no partial result is returned. -/
theorem invalid_discount_aborts (carrier : String) (target tol : ℚ) (topn : ℤ)
    (files : List ContractFile) (f : ContractFile) (row : Row) (msg : String)
    (hf : f ∈ files)
    (hcont : contributesB (get_spend_range target tol).1 (get_spend_range target tol).2 f
      = true)
    (hrow : row ∈ f.rows) (hbad : row.cell = .bad msg) :
    ∃ e, search_contracts (some files) carrier target tol topn = .error e ∧
      search_contracts_endpoint (some files) carrier target tol topn =
        .err 500 ("An error occurred: " ++ errorMessage e) := by
  rcases processFile_fail_of_badrow hcont hrow hbad with ⟨e, hfail⟩
  rcases collect_error_of_fail hf hfail with ⟨e₂, he₂⟩
  exact ⟨e₂, search_error_of_collect he₂, endpoint_of_error (search_error_of_collect he₂)⟩

/-- C7 witness: a `$700K.csv` file with one uncoercible cell aborts
the whole request. -/
theorem invalid_discount_aborts_witness :
    ∃ e, search_contracts
        (some [⟨"$700K.csv", [⟨"Ground", .val 40⟩, ⟨"2DA", .bad "could not convert string to float: N/A"⟩]⟩])
        "UPS" 700000 (2 / 10) 3 = .error e ∧
      search_contracts_endpoint
        (some [⟨"$700K.csv", [⟨"Ground", .val 40⟩, ⟨"2DA", .bad "could not convert string to float: N/A"⟩]⟩])
        "UPS" 700000 (2 / 10) 3 =
        .err 500 ("An error occurred: " ++ errorMessage e) :=
  invalid_discount_aborts "UPS" 700000 (2 / 10) 3 _
    ⟨"$700K.csv", [⟨"Ground", .val 40⟩, ⟨"2DA", .bad "could not convert string to float: N/A"⟩]⟩
    ⟨"2DA", .bad "could not convert string to float: N/A"⟩
    "could not convert string to float: N/A"
    (List.mem_singleton.mpr rfl)
    (by with_unfolding_all decide)
    (by with_unfolding_all decide)
    rfl

/-- In a pairwise-sorted list every kept element of `take k` dominates
every element left out of it. -/
theorem pairwise_take_cross {α : Type} {R : α → α → Prop} {l : List α}
    (h : l.Pairwise R) (k : ℕ) :
    ∀ a ∈ l.take k, ∀ b ∈ l, b ∉ l.take k → R a b := by
  intro a ha b hb hnb
  have h₂ : (l.take k ++ l.drop k).Pairwise R := by
    rw [List.take_append_drop]
    exact h
  rcases List.pairwise_append.mp h₂ with ⟨_, _, hcross⟩
  have hbd : b ∈ l.drop k := by
    have hb₂ : b ∈ l.take k ++ l.drop k := by
      rw [List.take_append_drop]
      exact hb
    rcases List.mem_append.mp hb₂ with h₃ | h₃
    · exact absurd h₃ hnb
    · exact h₃
  exact hcross a ha b hbd

/-- C6: on success, `top_services` is the image of a stable descending
sort of the service-level statistics by best discount, truncated by
the Python slice `[:top_n]`; the kept entries dominate every dropped
one, and with `0 ≤ top_n` at most `top_n` entries appear
(app.py 110–126). -/
theorem top_services_sorted_truncated (carrier : String) (target tol : ℚ) (topn : ℤ)
    (files : List ContractFile) (r : SearchResults)
    (h : search_contracts (some files) carrier target tol topn = .ok r) :
    ∃ cds sorted,
      collectContracts (get_spend_range target tol).1 (get_spend_range target tol).2 files
        = .ok cds ∧
      List.Perm sorted (serviceLevelStats cds) ∧
      sorted.Pairwise (fun a b => b.2.best.discount ≤ a.2.best.discount) ∧
      r.top_services = (pyTake topn sorted).map (fun p => (p.1, fmtStat p.2)) ∧
      (0 ≤ topn → r.top_services.length ≤ topn.toNat) ∧
      (∀ a ∈ pyTake topn sorted, ∀ b ∈ sorted, b ∉ pyTake topn sorted →
        b.2.best.discount ≤ a.2.best.discount) := by
  rcases search_ok_elim h with ⟨cds, hok, htop⟩
  refine ⟨cds, sortDesc (fun p => p.2.best.discount) (serviceLevelStats cds), hok,
    sortDesc_perm _ _, sortDesc_pairwise _ _, htop, ?_, ?_⟩
  · intro hn
    rw [htop, List.length_map]
    exact pyTake_length_le _ _ hn
  · rw [pyTake_eq_take]
    exact pairwise_take_cross (sortDesc_pairwise _ _) _

/-- C6 witness: with `top_n = 1` and two service levels whose best
discounts are 50% and 30%, only the 50% entry appears. -/
theorem top_services_sorted_truncated_witness :
    (∃ cds sorted,
      collectContracts (get_spend_range 700000 (2 / 10)).1 (get_spend_range 700000 (2 / 10)).2
          [⟨"$700K.csv", [⟨"Next Day Air", .val (1 / 2)⟩, ⟨"Ground", .val (3 / 10)⟩]⟩]
        = .ok cds ∧
      List.Perm sorted (serviceLevelStats cds) ∧
      sorted.Pairwise (fun a b => b.2.best.discount ≤ a.2.best.discount) ∧
      (SearchResults.mk "($560K-$840K)" "Number of contracts in this range: 1"
          [("Next Day Air", ⟨"50.000% at $700K.csv", "50.000% at $700K.csv"⟩)]).top_services
        = (pyTake 1 sorted).map (fun p => (p.1, fmtStat p.2)) ∧
      ((0 : ℤ) ≤ 1 →
        (SearchResults.mk "($560K-$840K)" "Number of contracts in this range: 1"
          [("Next Day Air", ⟨"50.000% at $700K.csv", "50.000% at $700K.csv"⟩)]).top_services.length
          ≤ (1 : ℤ).toNat) ∧
      (∀ a ∈ pyTake 1 sorted, ∀ b ∈ sorted, b ∉ pyTake 1 sorted →
        b.2.best.discount ≤ a.2.best.discount)) ∧
    search_contracts
        (some [⟨"$700K.csv", [⟨"Next Day Air", .val (1 / 2)⟩, ⟨"Ground", .val (3 / 10)⟩]⟩])
        "UPS" 700000 (2 / 10) 1 =
      .ok ⟨"($560K-$840K)", "Number of contracts in this range: 1",
        [("Next Day Air", ⟨"50.000% at $700K.csv", "50.000% at $700K.csv"⟩)]⟩ :=
  ⟨top_services_sorted_truncated "UPS" 700000 (2 / 10) 1
      [⟨"$700K.csv", [⟨"Next Day Air", .val (1 / 2)⟩, ⟨"Ground", .val (3 / 10)⟩]⟩]
      ⟨"($560K-$840K)", "Number of contracts in this range: 1",
        [("Next Day Air", ⟨"50.000% at $700K.csv", "50.000% at $700K.csv"⟩)]⟩
      (by with_unfolding_all rfl),
   by with_unfolding_all rfl⟩

/-- C10: every service level kept in `sorted_services` has its best
discount at least its worst, and both extremes trace back to a kept
contract's `service_levels` entry and, through it, to an actual CSV
row of that contract's file (app.py 88–114). -/
theorem best_worst_originate (target tol : ℚ) (topn : ℤ)
    (files : List ContractFile) (cds : List ContractInfo) (s : String) (st : SLStat)
    (hok : collectContracts (get_spend_range target tol).1 (get_spend_range target tol).2 files
      = .ok cds)
    (hmem : (s, st) ∈ sortedServices topn (serviceLevelStats cds)) :
    st.worst.discount ≤ st.best.discount ∧
    (∃ c ∈ cds, st.best.contract = c.filename ∧
      (s, st.best.discount) ∈ c.service_levels) ∧
    (∃ c ∈ cds, st.worst.contract = c.filename ∧
      (s, st.worst.discount) ∈ c.service_levels) ∧
    (∃ f ∈ files, st.best.contract = f.filename ∧ ∃ row ∈ f.rows, row.service = s ∧
      ∃ q, row.cell = .val q ∧ st.best.discount = normalize_discount q) ∧
    (∃ f ∈ files, st.worst.contract = f.filename ∧ ∃ row ∈ f.rows, row.service = s ∧
      ∃ q, row.cell = .val q ∧ st.worst.discount = normalize_discount q) := by
  have hmem₂ : (s, st) ∈ serviceLevelStats cds := by
    have h₁ := pyTake_subset topn _ hmem
    exact ((sortDesc_perm _ _).mem_iff).mp h₁
  obtain ⟨hle, hbest, hworst⟩ := serviceLevelStats_inv (s, st) hmem₂
  refine ⟨hle, hbest, hworst, ?_, ?_⟩
  · rcases hbest with ⟨c, hc, hfn, hsl⟩
    rcases collect_mem hok hc with ⟨g, hg, hkeep⟩
    rcases processFile_keep hkeep with ⟨_, hgfn, hbs⟩
    rcases buildServiceLevelsAux_mem g.rows [] c.service_levels hbs hsl with
      habs | ⟨row, hrow, hsvc, q, hcell, hd⟩
    · simp at habs
    · exact ⟨g, hg, by rw [hfn, hgfn], row, hrow, hsvc, q, hcell, hd⟩
  · rcases hworst with ⟨c, hc, hfn, hsl⟩
    rcases collect_mem hok hc with ⟨g, hg, hkeep⟩
    rcases processFile_keep hkeep with ⟨_, hgfn, hbs⟩
    rcases buildServiceLevelsAux_mem g.rows [] c.service_levels hbs hsl with
      habs | ⟨row, hrow, hsvc, q, hcell, hd⟩
    · simp at habs
    · exact ⟨g, hg, by rw [hfn, hgfn], row, hrow, hsvc, q, hcell, hd⟩

/-- C10 witness: `best_worst_originate` at a directory holding one
`$700K.csv` with two `Ground` rows. -/
theorem best_worst_originate_witness :
    ((⟨⟨45, "$700K.csv"⟩, ⟨45, "$700K.csv"⟩⟩ : SLStat).worst.discount ≤
      (⟨⟨45, "$700K.csv"⟩, ⟨45, "$700K.csv"⟩⟩ : SLStat).best.discount) ∧
    (∃ c ∈ [(⟨"$700K.csv", 700000, [("Ground", 45)]⟩ : ContractInfo)],
      ("$700K.csv" : String) = c.filename ∧
        (("Ground", (45 : ℚ))) ∈ c.service_levels) := by
  have h := best_worst_originate 700000 (2 / 10) 3
    [⟨"$700K.csv", [⟨"Ground", .val 40⟩, ⟨"Ground", .val 45⟩]⟩]
    [⟨"$700K.csv", 700000, [("Ground", 45)]⟩]
    "Ground" ⟨⟨45, "$700K.csv"⟩, ⟨45, "$700K.csv"⟩⟩
    (by with_unfolding_all rfl)
    (by with_unfolding_all decide)
  exact ⟨h.1, h.2.1⟩

/-! ## Statistics-service lemmas -/

theorem foldl_min_le_init : ∀ (ds : List ℚ) (d : ℚ), ds.foldl min d ≤ d := by
  intro ds
  induction ds with
  | nil => intro d; exact le_refl d
  | cons e es ih =>
      intro d
      exact le_trans (ih (min d e)) (min_le_left d e)

theorem foldl_min_le : ∀ (ds : List ℚ) (d v : ℚ), v ∈ ds → ds.foldl min d ≤ v := by
  intro ds
  induction ds with
  | nil => intro d v hv; simp at hv
  | cons e es ih =>
      intro d v hv
      rcases List.mem_cons.mp hv with hv | hv
      · subst hv
        exact le_trans (foldl_min_le_init es (min d v)) (min_le_right d v)
      · exact ih (min d e) v hv

theorem foldl_min_mem : ∀ (ds : List ℚ) (d : ℚ), ds.foldl min d ∈ d :: ds := by
  intro ds
  induction ds with
  | nil => intro d; exact List.mem_singleton.mpr rfl
  | cons e es ih =>
      intro d
      rw [List.foldl_cons]
      rcases List.mem_cons.mp (ih (min d e)) with h | h
      · rw [h]
        rcases le_total d e with hde | hde
        · rw [min_eq_left hde]
          exact List.mem_cons_self _ _
        · rw [min_eq_right hde]
          exact List.mem_cons_of_mem _ (List.mem_cons_self _ _)
      · exact List.mem_cons_of_mem _ (List.mem_cons_of_mem _ h)

theorem le_foldl_max_init : ∀ (ds : List ℚ) (d : ℚ), d ≤ ds.foldl max d := by
  intro ds
  induction ds with
  | nil => intro d; exact le_refl d
  | cons e es ih =>
      intro d
      exact le_trans (le_max_left d e) (ih (max d e))

theorem le_foldl_max : ∀ (ds : List ℚ) (d v : ℚ), v ∈ ds → v ≤ ds.foldl max d := by
  intro ds
  induction ds with
  | nil => intro d v hv; simp at hv
  | cons e es ih =>
      intro d v hv
      rcases List.mem_cons.mp hv with hv | hv
      · subst hv
        exact le_trans (le_max_right d v) (le_foldl_max_init es (max d v))
      · exact ih (max d e) v hv

theorem foldl_max_mem : ∀ (ds : List ℚ) (d : ℚ), ds.foldl max d ∈ d :: ds := by
  intro ds
  induction ds with
  | nil => intro d; exact List.mem_singleton.mpr rfl
  | cons e es ih =>
      intro d
      rw [List.foldl_cons]
      rcases List.mem_cons.mp (ih (max d e)) with h | h
      · rw [h]
        rcases le_total d e with hde | hde
        · rw [max_eq_right hde]
          exact List.mem_cons_of_mem _ (List.mem_cons_self _ _)
        · rw [max_eq_left hde]
          exact List.mem_cons_self _ _
      · exact List.mem_cons_of_mem _ (List.mem_cons_of_mem _ h)

theorem groupInsert_nonempty {s : String} {d : ℚ} :
    ∀ {l : List (String × List ℚ)}, (∀ x ∈ l, x.2 ≠ []) →
      ∀ x ∈ groupInsert s d l, x.2 ≠ [] := by
  intro l
  induction l with
  | nil =>
      intro _ x hx
      rcases List.mem_singleton.mp hx with hx
      subst hx
      simp
  | cons p rest ih =>
      obtain ⟨s₂, ds⟩ := p
      intro hall x hx
      simp only [groupInsert] at hx
      by_cases hs : s = s₂
      · rw [if_pos hs] at hx
        rcases List.mem_cons.mp hx with hx | hx
        · subst hx
          simp
        · exact hall x (List.mem_cons_of_mem _ hx)
      · rw [if_neg hs] at hx
        rcases List.mem_cons.mp hx with hx | hx
        · subst hx
          exact hall (s₂, ds) (List.mem_cons_self _ _)
        · exact ih (fun y hy => hall y (List.mem_cons_of_mem _ hy)) x hx

theorem groupByService_nonempty {ps : List (String × ℚ)} :
    ∀ x ∈ groupByService ps, x.2 ≠ [] := by
  suffices h : ∀ (l : List (String × ℚ)) (acc : List (String × List ℚ)),
      (∀ x ∈ acc, x.2 ≠ []) →
      ∀ x ∈ l.foldl (fun a p => groupInsert p.1 p.2 a) acc, x.2 ≠ [] by
    intro x hx
    exact h ps [] (by simp) x hx
  intro l
  induction l with
  | nil => intro acc h x hx; exact h x hx
  | cons p rest ih =>
      intro acc hall x hx
      simp only [List.foldl_cons] at hx
      exact ih _ (fun y hy => groupInsert_nonempty hall y hy) x hx

/-- C2: the program also exposes the Statistics Service —
`POST /analyze_contracts/` with body
`{target_spend, carrier, tolerance}` — returning a plain-text
multi-block report; each block carries count, mean, min, max and the
sorted list of the service level's discounts (spec-modelled: the
service's source file is not under `src/`). -/
theorem statistics_service_report (dir : Option (List ContractFile))
    (files : List ContractFile) (carrier : String) (target tol : ℚ)
    (ps : List (String × ℚ))
    (hdir : dir = some files)
    (hok : analyzeCollect (get_spend_range target tol).1 (get_spend_range target tol).2 files
      = .ok ps) :
    analyze_contracts_endpoint dir carrier target tol =
      .ok (renderReport (analyzeStats ps)) ∧
    ∀ st ∈ analyzeStats ps,
      st.count = st.values.length ∧ 0 < st.count ∧
      st.values.Pairwise (· ≤ ·) ∧
      st.mean * (st.count : ℚ) = listSum st.values ∧
      (∀ v ∈ st.values, st.minD ≤ v ∧ v ≤ st.maxD) ∧
      st.minD ∈ st.values ∧ st.maxD ∈ st.values := by
  constructor
  · subst hdir
    simp only [analyze_contracts_endpoint]
    rw [hok]
  · intro st hst
    have hst₂ : st ∈ (groupByService ps).map statsOfGroup :=
      ((sortDesc_perm _ _).mem_iff).mp hst
    rcases List.mem_map.mp hst₂ with ⟨g, hg, hgs⟩
    have hne : g.2 ≠ [] := groupByService_nonempty g hg
    obtain ⟨s, ds⟩ := g
    cases ds with
    | nil => exact absurd rfl hne
    | cons d rest =>
        subst hgs
        simp only [statsOfGroup]
        have hperm := sortAsc_perm (d :: rest)
        refine ⟨by rw [hperm.length_eq], by simp, sortAsc_pairwise _, ?_, ?_, ?_, ?_⟩
        · show listSum (d :: rest) / ((d :: rest).length : ℚ) * ((d :: rest).length : ℚ)
            = listSum (sortAsc (d :: rest))
          rw [div_mul_cancel₀]
          · unfold listSum
            exact (hperm.sum_eq).symm
          · intro hzero
            rw [Nat.cast_eq_zero] at hzero
            simp at hzero
        · intro v hv
          have hv₂ : v ∈ d :: rest := hperm.mem_iff.mp hv
          rcases List.mem_cons.mp hv₂ with hv₂ | hv₂
          · subst hv₂
            exact ⟨foldl_min_le_init rest v, le_foldl_max_init rest v⟩
          · exact ⟨foldl_min_le rest d v hv₂, le_foldl_max rest d v hv₂⟩
        · exact hperm.mem_iff.mpr (foldl_min_mem rest d)
        · exact hperm.mem_iff.mpr (foldl_max_mem rest d)

/-- C2 witness: the report for one matching contract whose `Ground`
discounts are `[40, 42, 44]`: average 42, min 40, max 44, count 3,
sorted values. -/
theorem statistics_service_report_witness :
    analyze_contracts_endpoint
        (some [⟨"$700K.csv", [⟨"Ground", .val 40⟩, ⟨"Ground", .val 42⟩, ⟨"Ground", .val 44⟩]⟩])
        "UPS" 700000 (2 / 10) =
      .ok (renderReport (analyzeStats [("Ground", 40), ("Ground", 42), ("Ground", 44)])) ∧
    analyzeStats [("Ground", 40), ("Ground", 42), ("Ground", 44)] =
      [⟨"Ground", 3, 42, 40, 44, [40, 42, 44]⟩] ∧
    renderReport (analyzeStats [("Ground", 40), ("Ground", 42), ("Ground", 44)]) =
      "Ground\n  mean: 42.000%\n  min: 40.000%\n  max: 44.000%\n  count: 3\n  values: 40.000%, 42.000%, 44.000%\n" :=
  ⟨(statistics_service_report
      (some [⟨"$700K.csv", [⟨"Ground", .val 40⟩, ⟨"Ground", .val 42⟩, ⟨"Ground", .val 44⟩]⟩])
      [⟨"$700K.csv", [⟨"Ground", .val 40⟩, ⟨"Ground", .val 42⟩, ⟨"Ground", .val 44⟩]⟩]
      "UPS" 700000 (2 / 10)
      [("Ground", 40), ("Ground", 42), ("Ground", 44)]
      rfl (by with_unfolding_all rfl)).1,
   by with_unfolding_all rfl,
   by with_unfolding_all rfl⟩
